import Mathlib

/-!
# Verification of the Simple-File-Upload-Server storage controller

Shallow embedding of `src/controllers.rs` (the `FileUploader` type and its
operations) together with proofs about the specification's claims.

Modelling conventions:
* Strings (filenames, paths) are modelled as `List Char`; a Rust `String`
  value `s` corresponds to `s.data`.
* The target platform is Unix: `std::path` components never produce a
  drive/volume marker there, but the constructor is kept in the `Component`
  type because `download_file` pattern-matches on it.
* Machine integers: the upload counter is a Rust `u64`, modelled as a `Nat`
  together with the explicit bound `u64Max = 2^64 - 1`; `checked_add`
  becomes an explicit comparison against that bound.
* Filesystem effects are made explicit: directory listings are a list of
  entries, the open syscall is a function from paths to optional files, and
  file writes thread a `FileState` value.
-/

/-- A filename or path, i.e. the character data of a Rust `String`. -/
abbrev Name := List Char

/-- One component of a path, as produced by Rust `std::path::Components`.
`volumePfx` corresponds to `Component::Prefix` (Windows drive/volume
markers); on Unix it is never produced. -/
inductive Component where
  | volumePfx (s : Name)
  | rootDir
  | curDir
  | parentDir
  | normal (s : Name)
  deriving DecidableEq, Repr

/-- Split a character list on the `/` separator, keeping empty segments
(they are filtered out afterwards, mirroring how Rust's component iterator
skips repeated separators). -/
def splitOnSlash : List Char → List (List Char)
  | [] => [[]]
  | c :: cs =>
    if c = '/' then [] :: splitOnSlash cs
    else
      match splitOnSlash cs with
      | [] => [[c]]
      | s :: ss => (c :: s) :: ss

/-- The non-empty `/`-separated segments of a path. -/
def pathSegs (p : Name) : List Name :=
  (splitOnSlash p).filter (fun s => s ≠ [])

/-- Map one raw segment to a component: `..` is the parent-directory
marker, anything else is a normal segment. -/
def mapSeg (s : Name) : Component :=
  if s = "..".data then Component.parentDir else Component.normal s

/-- Rust `Path::components()` on Unix: a leading `/` yields `RootDir`
(after which any `.` segment is dropped); on a relative path a single
leading `.` segment is kept as `CurDir` and every other `.` segment is
dropped. -/
def pathComponents (p : Name) : List Component :=
  let segs := pathSegs p
  if p.head? = some '/' then
    Component.rootDir :: (segs.filter (fun s => s ≠ ".".data)).map mapSeg
  else
    match segs with
    | [] => []
    | h :: t =>
      (if h = ".".data then [Component.curDir] else [mapSeg h])
        ++ (t.filter (fun s => s ≠ ".".data)).map mapSeg

/-- Rust `Path::file_name()`: the last component when it is a normal
segment, `none` otherwise (empty path, root, or a path ending in `..`). -/
def fileName (p : Name) : Option Name :=
  match (pathComponents p).getLast? with
  | some (Component.normal s) => some s
  | _ => none

-- Sanity checks against documented Rust behaviour.
example : pathComponents "a/b".data =
    [Component.normal "a".data, Component.normal "b".data] := by decide
example : pathComponents "./x".data =
    [Component.curDir, Component.normal "x".data] := by decide
example : pathComponents "/a/./b".data =
    [Component.rootDir, Component.normal "a".data, Component.normal "b".data] := by
  decide
example : pathComponents "a/../b".data =
    [Component.normal "a".data, Component.parentDir, Component.normal "b".data] := by
  decide
example : pathComponents "".data = [] := by decide
example : pathComponents ".".data = [Component.curDir] := by decide
example : fileName "a/b/c.txt".data = some "c.txt".data := by decide
example : fileName "a/..".data = none := by decide
example : fileName "a/.".data = some "a".data := by decide
example : fileName "/".data = none := by decide
example : fileName "..".data = none := by decide
example : fileName "".data = none := by decide
example : fileName "/etc/passwd".data = some "passwd".data := by decide

/-! ## Data model -/

/-- `Filedata` from `controllers.rs`: one stored file's externally visible
name. -/
structure Filedata where
  filename : Name
  deriving DecidableEq, Repr

/-- One entry of the storage directory as seen by `read_dir`, with its
name and whether it is a directory (`file.file_type().is_dir()`). -/
structure DirEntry where
  name : Name
  isDir : Bool
  deriving DecidableEq, Repr

/-- `FileUploader::get_all_file_data`: iterate the direct entries of the
storage directory, skip directories, convert the rest to `Filedata`. -/
def get_all_file_data (entries : List DirEntry) : List Filedata :=
  (entries.filter (fun e => !e.isDir)).map (fun e => { filename := e.name })

/-! ## Paths and the download operation -/

/-- The fixed reserved name of the lock marker file. -/
def lockMarkerName : Name := ".lock".data

/-- Rust `PathBuf::push`: pushing an absolute path replaces the buffer;
otherwise the new part is appended behind a `/` separator. -/
def pushPath (base part : Name) : Name :=
  if part.head? = some '/' then part
  else if base = [] then part
  else if base.getLast? = some '/' then base ++ part
  else base ++ '/' :: part

/-- An open readable file handle, carrying the bytes the file holds. -/
structure FsFile where
  content : List Nat
  deriving DecidableEq, Repr

/-- The open syscall of the ambient filesystem: which path opens to which
file. `none` is any `Err(_)` from `File::open`. -/
def OpenFs := Name → Option FsFile

/-- Outcome of `download_file`: the returned `Ok` value together with the
path passed to `File::open`, when the code reached the open call at all. -/
structure DownloadResult where
  result : Option FsFile
  openAttempt : Option Name
  deriving DecidableEq, Repr

/-- A component that is neither a parent-directory marker, a root marker,
nor a drive/volume marker: exactly the components the download validation
lets through. -/
def isPlainComponent (c : Component) : Bool :=
  match c with
  | Component.curDir => true
  | Component.normal _ => true
  | _ => false

/-- The traversal check of `FileUploader::download_file`: some path
component is `ParentDir`, `RootDir` or `Prefix(_)`. -/
def has_traversal (p : Name) : Bool :=
  (pathComponents p).any fun c =>
    match c with
    | Component.parentDir => true
    | Component.rootDir => true
    | Component.volumePfx _ => true
    | _ => false

/-- `FileUploader::download_file`: reject empty or traversal names with
`Ok(None)` before touching the filesystem; otherwise push the requested
name onto the storage path and try to open it, mapping an open error to
`Ok(None)`. -/
def download_file (folder_path : Name) (fs : OpenFs) (filename : Name) :
    DownloadResult :=
  let is_invalid_filename := has_traversal filename || filename = []
  if is_invalid_filename then
    { result := none, openAttempt := none }
  else
    let file_path := pushPath folder_path filename
    match fs file_path with
    | some f => { result := some f, openAttempt := some file_path }
    | none => { result := none, openAttempt := some file_path }

/-! ## The upload counter and the upload operation -/

/-- Largest value of a Rust `u64`. -/
def u64Max : Nat := 2 ^ 64 - 1

/-- The default filename `format!("file_upload_{}", file_id)`. -/
def default_filename (file_id : Nat) : Name :=
  "file_upload_".data ++ Nat.toDigits 10 file_id

/-- The name `write_file` stores under: the client-supplied filename when
the field carries one (else the default), then reduced to its final path
segment by `Path::file_name()`, falling back to the default again when
there is no such segment. -/
def safe_name (clientName : Option Name) (file_id : Nat) : Name :=
  let dflt := default_filename file_id
  let raw := clientName.getD dflt
  (fileName raw).getD dflt

/-- One step of the incoming multipart stream: a chunk of bytes, or an I/O
error raised by `field.chunk()` / `write_all`. -/
inductive IoStep where
  | chunk (bytes : List Nat)
  | ioError
  deriving DecidableEq, Repr

/-- The destination file while `write_file` is streaming into it. -/
structure FileState where
  content : List Nat
  flushed : Bool
  deriving DecidableEq, Repr

/-- The write loop of `write_file`: append each chunk to the file, stop
with an error when the stream errors, and flush after the last chunk. -/
def writeChunks : List IoStep → FileState → Except Unit FileState
  | [], st => Except.ok { st with flushed := true }
  | IoStep.ioError :: _, _ => Except.error ()
  | IoStep.chunk bs :: rest, st =>
    writeChunks rest { content := st.content ++ bs, flushed := false }

/-- Errors of the upload path. -/
inductive UploadErr where
  | counterOverflow
  | uploadFailed
  deriving DecidableEq, Repr

/-- `FileUploader::write_file`: sanitize the name, truncate-or-create the
destination (discarding any previous content; `createOk = false` is
`File::create` failing), stream the chunks, flush, and return the
`Filedata`. -/
def write_file (createOk : Bool) (clientName : Option Name) (file_id : Nat)
    (stream : List IoStep) : Except UploadErr (Filedata × FileState) :=
  let name := safe_name clientName file_id
  if createOk then
    match writeChunks stream { content := [], flushed := false } with
    | Except.ok st => Except.ok ({ filename := name }, st)
    | Except.error _ => Except.error UploadErr.uploadFailed
  else Except.error UploadErr.uploadFailed

/-- The critical section of `upload_file`: read the current counter value
as the id, then commit `checked_add(1)`, failing with the overflow error
(and leaving the counter untouched) when the counter is at `u64::MAX`.
Returns the reserved id and the committed counter. -/
def reserve (count : Nat) : Except UploadErr (Nat × Nat) :=
  let id := count
  if count = u64Max then Except.error UploadErr.counterOverflow
  else Except.ok (id, count + 1)

/-- `FileUploader::upload_file`: reserve an id under the counter mutex,
then run `write_file` with it. Returns the result together with the
counter after the call. -/
def upload_file (count : Nat) (createOk : Bool) (clientName : Option Name)
    (stream : List IoStep) : Except UploadErr (Filedata × FileState) × Nat :=
  match reserve count with
  | Except.error e => (Except.error e, count)
  | Except.ok (file_id, count') =>
    (write_file createOk clientName file_id stream, count')

/-- Iterated id reservation: perform `n` reservations starting from the
given counter value, collecting the ids handed out (stopping if the
counter ever overflows). -/
def runReservations : Nat → Nat → List Nat × Nat
  | 0, count => ([], count)
  | Nat.succ n, count =>
    match reserve count with
    | Except.error _ => ([], count)
    | Except.ok (id, count') =>
      let rest := runReservations n count'
      (id :: rest.1, rest.2)

/-! ## Construction and the instance lock -/

/-- The world `FileUploader::new` interacts with: whether
`create_dir_all` (and the subsequent open of the marker file) can succeed
for the storage path, and whether the exclusive lock on the marker file is
currently held by someone. -/
structure LockWorld where
  dirCreatable : Bool
  locked : Bool
  deriving DecidableEq, Repr

/-- Startup errors of `FileUploader::new`. -/
inductive InitErr where
  | dirUnavailable
  | alreadyLocked
  deriving DecidableEq, Repr

/-- The controller state produced by a successful construction. -/
structure FileUploader where
  folder_path : Name
  upload_count : Nat
  deriving DecidableEq, Repr

/-- `FileUploader::new`: create the storage directory (with parents),
create-or-truncate the marker file `.lock` inside it, and take a
non-blocking exclusive lock on it; any failure aborts construction. On
success the world records the lock as held. -/
def FileUploader.new (w : LockWorld) (folder_path : Name) :
    Except InitErr (FileUploader × LockWorld) :=
  if w.dirCreatable then
    if w.locked then Except.error InitErr.alreadyLocked
    else
      Except.ok ({ folder_path := folder_path, upload_count := 0 },
        { w with locked := true })
  else Except.error InitErr.dirUnavailable

example : safe_name (some "a/b/c.txt".data) 5 = "c.txt".data := by decide
example : safe_name none 0 = "file_upload_0".data := by decide
example : safe_name (some "..".data) 3 = "file_upload_3".data := by decide
example : safe_name (some "".data) 3 = "file_upload_3".data := by decide
example : safe_name (some "/etc/passwd".data) 1 = "passwd".data := by decide
example :
    download_file "uploads".data (fun _ => none) "../x".data =
      { result := none, openAttempt := none } := by decide
example :
    download_file "uploads".data (fun _ => none) "a.txt".data =
      { result := none, openAttempt := some "uploads/a.txt".data } := by decide

/-! ## Helper lemmas about the path model -/

theorem splitOnSlash_ne_nil (p : Name) : splitOnSlash p ≠ [] := by
  cases p with
  | nil => simp [splitOnSlash]
  | cons c cs =>
    simp only [splitOnSlash]
    by_cases hc : c = '/'
    · simp [hc]
    · simp only [hc, if_false]
      cases splitOnSlash cs <;> simp

theorem slash_not_mem_splitOnSlash (p : Name) :
    ∀ s ∈ splitOnSlash p, '/' ∉ s := by
  induction p with
  | nil =>
    intro s hs
    simp [splitOnSlash] at hs
    simp [hs]
  | cons c cs ih =>
    intro s hs
    simp only [splitOnSlash] at hs
    by_cases hc : c = '/'
    · simp only [hc, if_true, List.mem_cons] at hs
      rcases hs with h | h
      · simp [h]
      · exact ih s h
    · simp only [hc, if_false] at hs
      cases hsp : splitOnSlash cs with
      | nil => exact absurd hsp (splitOnSlash_ne_nil cs)
      | cons t ts =>
        rw [hsp] at hs
        rcases List.mem_cons.mp hs with h | h
        · subst h
          intro hmem
          rcases List.mem_cons.mp hmem with h1 | h1
          · exact hc h1.symm
          · exact ih t (hsp ▸ List.mem_cons_self t ts) h1
        · exact ih s (hsp ▸ List.mem_cons_of_mem t h)

theorem splitOnSlash_of_not_mem {p : Name} (h : '/' ∉ p) :
    splitOnSlash p = [p] := by
  induction p with
  | nil => rfl
  | cons c cs ih =>
    have hc : c ≠ '/' := fun he => h (he ▸ List.mem_cons_self c cs)
    have hcs : '/' ∉ cs := fun hm => h (List.mem_cons_of_mem c hm)
    simp only [splitOnSlash, hc, if_false, ih hcs]

theorem mem_pathSegs {p s : Name} (h : s ∈ pathSegs p) :
    s ≠ [] ∧ '/' ∉ s := by
  unfold pathSegs at h
  rcases List.mem_filter.mp h with ⟨hmem, hne⟩
  exact ⟨by simpa using hne, slash_not_mem_splitOnSlash p s hmem⟩

theorem mapSeg_eq_normal {x s : Name} (h : mapSeg x = Component.normal s) :
    x = s ∧ s ≠ "..".data := by
  unfold mapSeg at h
  by_cases hx : x = "..".data
  · simp [hx] at h
  · simp only [hx, if_false, Component.normal.injEq] at h
    exact ⟨h, h ▸ hx⟩

theorem normal_mem_pathComponents {p s : Name}
    (h : Component.normal s ∈ pathComponents p) :
    s ∈ pathSegs p ∧ s ≠ "..".data ∧ s ≠ ".".data := by
  unfold pathComponents at h
  by_cases hr : p.head? = some '/'
  · simp only [hr, if_pos rfl] at h
    rcases List.mem_cons.mp h with h1 | h1
    · exact absurd h1.symm (by simp)
    · rcases List.mem_map.mp h1 with ⟨x, hx, hmap⟩
      rcases List.mem_filter.mp hx with ⟨hxseg, hxdot⟩
      rcases mapSeg_eq_normal hmap with ⟨hxs, hdd⟩
      exact ⟨hxs ▸ hxseg, hdd, hxs ▸ (by simpa using hxdot)⟩
  · simp only [hr, if_neg hr] at h
    cases hsegs : pathSegs p with
    | nil => rw [hsegs] at h; simp at h
    | cons hd t =>
      rw [hsegs] at h
      rcases List.mem_append.mp h with h1 | h1
      · by_cases hdot : hd = ".".data
        · simp [hdot] at h1
        · simp only [hdot, if_false, List.mem_singleton] at h1
          rcases mapSeg_eq_normal h1.symm with ⟨hxs, hdd⟩
          refine ⟨hxs ▸ (hsegs ▸ List.mem_cons_self hd t), hdd, hxs ▸ hdot⟩
      · rcases List.mem_map.mp h1 with ⟨x, hx, hmap⟩
        rcases List.mem_filter.mp hx with ⟨hxseg, hxdot⟩
        rcases mapSeg_eq_normal hmap with ⟨hxs, hdd⟩
        exact ⟨hxs ▸ (hsegs ▸ List.mem_cons_of_mem hd hxseg), hdd,
          hxs ▸ (by simpa using hxdot)⟩

theorem fileName_eq_some {p s : Name} (h : fileName p = some s) :
    Component.normal s ∈ pathComponents p := by
  unfold fileName at h
  cases hl : (pathComponents p).getLast? with
  | none => rw [hl] at h; simp at h
  | some c =>
    rw [hl] at h
    cases c with
    | normal x =>
      simp only [Option.some.injEq] at h
      subst h
      exact List.mem_of_getLast?_eq_some hl
    | volumePfx x => simp at h
    | rootDir => simp at h
    | curDir => simp at h
    | parentDir => simp at h

theorem fileName_some_facts {p s : Name} (h : fileName p = some s) :
    s ≠ [] ∧ '/' ∉ s ∧ s ≠ "..".data ∧ s ≠ ".".data := by
  have hmem := normal_mem_pathComponents (fileName_eq_some h)
  rcases hmem with ⟨hseg, hdd, hdot⟩
  rcases mem_pathSegs hseg with ⟨hne, hns⟩
  exact ⟨hne, hns, hdd, hdot⟩

theorem fileName_simple {p : Name} (hne : p ≠ []) (hns : '/' ∉ p)
    (hdot : p ≠ ".".data) (hdd : p ≠ "..".data) : fileName p = some p := by
  have hhead : p.head? ≠ some '/' := by
    cases p with
    | nil => simp
    | cons c cs =>
      simp only [List.head?_cons]
      intro hc
      have hc2 : c = '/' := Option.some.inj hc
      subst hc2
      exact hns (List.mem_cons_self '/' cs)
  have hsegs : pathSegs p = [p] := by
    unfold pathSegs
    rw [splitOnSlash_of_not_mem hns]
    simp [hne]
  unfold fileName pathComponents
  simp only [if_neg hhead, hsegs]
  simp only [hdot, if_false, List.filter_nil, List.map_nil, List.append_nil]
  unfold mapSeg
  simp [hdd]

/-! ## Helper lemmas about decimal digit strings -/

theorem digitChar_ne_slash (n : Nat) : Nat.digitChar n ≠ '/' := by
  rcases Nat.lt_or_ge n 16 with h | h
  · interval_cases n <;> decide
  · have e0 : n ≠ 0 := by omega
    have e1 : n ≠ 1 := by omega
    have e2 : n ≠ 2 := by omega
    have e3 : n ≠ 3 := by omega
    have e4 : n ≠ 4 := by omega
    have e5 : n ≠ 5 := by omega
    have e6 : n ≠ 6 := by omega
    have e7 : n ≠ 7 := by omega
    have e8 : n ≠ 8 := by omega
    have e9 : n ≠ 9 := by omega
    have e10 : n ≠ 10 := by omega
    have e11 : n ≠ 11 := by omega
    have e12 : n ≠ 12 := by omega
    have e13 : n ≠ 13 := by omega
    have e14 : n ≠ 14 := by omega
    have e15 : n ≠ 15 := by omega
    simp only [Nat.digitChar, e0, e1, e2, e3, e4, e5, e6, e7, e8, e9, e10,
      e11, e12, e13, e14, e15, if_false]
    decide

theorem toDigitsCore_not_slash (b : Nat) :
    ∀ (fuel n : Nat) (ds : Name), '/' ∉ ds →
      '/' ∉ Nat.toDigitsCore b fuel n ds := by
  intro fuel
  induction fuel with
  | zero =>
    intro n ds h
    simpa [Nat.toDigitsCore] using h
  | succ f ih =>
    intro n ds h
    have hcons : '/' ∉ Nat.digitChar (n % b) :: ds := by
      intro hmem
      rcases List.mem_cons.mp hmem with h1 | h1
      · exact digitChar_ne_slash (n % b) h1.symm
      · exact h h1
    simp only [Nat.toDigitsCore]
    split
    · exact hcons
    · exact ih (n / b) (Nat.digitChar (n % b) :: ds) hcons

theorem toDigits_not_slash (n : Nat) : '/' ∉ Nat.toDigits 10 n :=
  toDigitsCore_not_slash 10 (n + 1) n [] (by simp)

theorem default_filename_head (n : Nat) :
    (default_filename n).head? = some 'f' := rfl

theorem default_filename_ne_nil (n : Nat) : default_filename n ≠ [] := by
  intro h
  have := congrArg List.head? h
  rw [default_filename_head] at this
  simp at this

theorem default_filename_ne_dot (n : Nat) :
    default_filename n ≠ ".".data := by
  intro h
  have := congrArg List.head? h
  rw [default_filename_head] at this
  simp at this

theorem default_filename_ne_dotdot (n : Nat) :
    default_filename n ≠ "..".data := by
  intro h
  have := congrArg List.head? h
  rw [default_filename_head] at this
  simp at this

theorem default_filename_not_slash (n : Nat) :
    '/' ∉ default_filename n := by
  unfold default_filename
  intro h
  rcases List.mem_append.mp h with h1 | h1
  · exact absurd h1 (by decide)
  · exact toDigits_not_slash n h1

theorem fileName_default (n : Nat) :
    fileName (default_filename n) = some (default_filename n) :=
  fileName_simple (default_filename_ne_nil n) (default_filename_not_slash n)
    (default_filename_ne_dot n) (default_filename_ne_dotdot n)

/-! ## Helper lemmas about the write loop and the counter -/

theorem writeChunks_map_chunk (chunks : List (List Nat)) :
    ∀ st : FileState, writeChunks (chunks.map IoStep.chunk) st =
      Except.ok { content := st.content ++ chunks.flatten, flushed := true } := by
  induction chunks with
  | nil => intro st; simp [writeChunks]
  | cons c cs ih =>
    intro st
    simp only [List.map_cons, writeChunks, ih, List.flatten_cons, List.append_assoc]

theorem writeChunks_error_of_mem {stream : List IoStep}
    (h : IoStep.ioError ∈ stream) :
    ∀ st, writeChunks stream st = Except.error () := by
  induction stream with
  | nil => simp at h
  | cons s rest ih =>
    intro st
    cases s with
    | ioError => simp [writeChunks]
    | chunk bs =>
      have hr : IoStep.ioError ∈ rest := by
        rcases List.mem_cons.mp h with h1 | h1
        · exact absurd h1 (by simp)
        · exact h1
      simp [writeChunks, ih hr]

theorem runReservations_eq (n : Nat) :
    ∀ start : Nat, start + n ≤ u64Max →
      runReservations n start = (List.range' start n, start + n) := by
  induction n with
  | zero => intro start h; simp [runReservations]
  | succ m ih =>
    intro start h
    have hs : start ≠ u64Max := by omega
    unfold runReservations reserve
    simp only [hs, if_false]
    rw [ih (start + 1) (by omega), List.range'_succ]
    simp
    omega

/-! ## The claims -/

/-- C1: for every requested download name that is empty, or that has a
path component which is a parent-directory marker, a root marker, or a
drive/volume marker, `download_file` returns `Ok(None)` and never reaches
the open call, so no path outside the storage directory is opened or
resolved. -/
theorem download_rejects_invalid (folder_path : Name) (fs : OpenFs)
    (filename : Name)
    (h : filename = [] ∨ ∃ c ∈ pathComponents filename,
        c = Component.parentDir ∨ c = Component.rootDir ∨
          ∃ s, c = Component.volumePfx s) :
    download_file folder_path fs filename =
      { result := none, openAttempt := none } := by
  have hinv : (has_traversal filename || decide (filename = [])) = true := by
    rcases h with h | ⟨c, hc, hkind⟩
    · subst h; simp
    · have h1 : has_traversal filename = true := by
        unfold has_traversal
        apply List.any_eq_true.mpr
        refine ⟨c, hc, ?_⟩
        rcases hkind with h | h | ⟨s, h⟩ <;> subst h <;> rfl
      simp [h1]
  unfold download_file
  simp only [hinv, if_true]

theorem download_rejects_invalid_witness :
    download_file "uploads".data (fun _ => none) "../secret".data =
      { result := none, openAttempt := none } :=
  download_rejects_invalid "uploads".data (fun _ => none) "../secret".data
    (Or.inr ⟨Component.parentDir, by decide, Or.inl rfl⟩)

/-- C10: `download_file` does not restrict valid names to direct children
of the storage directory: every non-empty name all of whose components are
normal segments or the current-directory marker passes validation, and the
controller attempts to open the storage path joined with the entire
(possibly multi-component) name. -/
theorem download_allows_subdir_names (folder_path : Name) (fs : OpenFs)
    (filename : Name) (hne : filename ≠ [])
    (hplain : (pathComponents filename).all isPlainComponent = true) :
    download_file folder_path fs filename =
      { result := fs (pushPath folder_path filename),
        openAttempt := some (pushPath folder_path filename) } := by
  have htrav : has_traversal filename = false := by
    unfold has_traversal
    apply List.any_eq_false.mpr
    intro c hc
    have hp := List.all_eq_true.mp hplain c hc
    cases c <;> simp_all [isPlainComponent]
  unfold download_file
  simp only [htrav, hne, decide_False, Bool.or_false, Bool.false_or, if_false]
  cases hfs : fs (pushPath folder_path filename) <;> simp [hfs]

theorem download_allows_subdir_names_witness :
    download_file "uploads".data
      (fun p => if p = "uploads/sub/inner.txt".data
        then some { content := [1] } else none)
      "sub/inner.txt".data =
      { result := some { content := [1] },
        openAttempt := some "uploads/sub/inner.txt".data } := by
  rw [download_allows_subdir_names _ _ _ (by decide) (by decide)]
  decide

/-- C5: the name stored by an upload is exactly the final path segment of
the client-supplied filename (all directory components, roots and volume
markers discarded): the stored name is non-empty, contains no separator
and is not a parent marker, so the file lands directly inside the storage
directory; when stripping yields no segment (client name absent, empty, or
a name like `..`) the default `file_upload_<id>` is used instead. -/
theorem upload_sanitizes_name (raw : Name) (file_id : Nat) :
    (∀ seg, fileName raw = some seg →
        safe_name (some raw) file_id = seg ∧ seg ≠ [] ∧ '/' ∉ seg ∧
          seg ≠ "..".data) ∧
    (fileName raw = none →
        safe_name (some raw) file_id = default_filename file_id) ∧
    safe_name none file_id = default_filename file_id := by
  refine ⟨?_, ?_, ?_⟩
  · intro seg hseg
    rcases fileName_some_facts hseg with ⟨h1, h2, h3, _⟩
    refine ⟨?_, h1, h2, h3⟩
    unfold safe_name
    simp [hseg]
  · intro hnone
    unfold safe_name
    simp [hnone]
  · unfold safe_name
    simp [fileName_default]

theorem upload_sanitizes_name_witness :
    (safe_name (some "a/b/c.txt".data) 7 = "c.txt".data ∧
      ("c.txt".data : Name) ≠ [] ∧ '/' ∉ "c.txt".data ∧
      "c.txt".data ≠ "..".data) ∧
    safe_name (some "..".data) 7 = default_filename 7 :=
  ⟨(upload_sanitizes_name "a/b/c.txt".data 7).1 "c.txt".data (by decide),
   (upload_sanitizes_name "..".data 7).2.1 (by decide)⟩

/-- C6: the upload counter never wraps and only increases: at the maximum
representable value `upload_file` fails with the counter-overflow error
leaving the counter unchanged, and no call ever decreases the counter. -/
theorem counter_never_wraps (count : Nat) (createOk : Bool)
    (clientName : Option Name) (stream : List IoStep) :
    (count = u64Max →
        upload_file count createOk clientName stream =
          (Except.error UploadErr.counterOverflow, count)) ∧
    count ≤ (upload_file count createOk clientName stream).2 := by
  constructor
  · intro h
    unfold upload_file reserve
    simp [h]
  · unfold upload_file reserve
    by_cases h : count = u64Max <;> simp [h]

theorem counter_never_wraps_witness :
    upload_file u64Max true none [] =
      (Except.error UploadErr.counterOverflow, u64Max) :=
  (counter_never_wraps u64Max true none []).1 rfl

/-- C7: for every upload that succeeds, the stored file's byte content is
exactly the in-order concatenation of the uploaded chunks; the file starts
from empty content (truncate-or-create) and is flushed before the
`Filedata` result is returned. -/
theorem upload_roundtrip (count : Nat) (clientName : Option Name)
    (chunks : List (List Nat)) (h : count ≠ u64Max) :
    upload_file count true clientName (chunks.map IoStep.chunk) =
      (Except.ok ({ filename := safe_name clientName count },
        { content := chunks.flatten, flushed := true }), count + 1) := by
  unfold upload_file reserve write_file
  simp [h, writeChunks_map_chunk]

theorem upload_roundtrip_witness :
    upload_file 0 true (some "report.pdf".data)
        ([[37, 80], [68, 70]].map IoStep.chunk) =
      (Except.ok ({ filename := safe_name (some "report.pdf".data) 0 },
        { content := [37, 80, 68, 70], flushed := true }), 1) := by
  rw [upload_roundtrip 0 (some "report.pdf".data) [[37, 80], [68, 70]]
    (by decide)]
  rfl

/-- C8: when the destination file cannot be created or an I/O error occurs
while streaming, `upload_file` returns the upload-failure error and the
counter keeps the committed reservation: it ends at the pre-call value
plus one, not at the pre-call value. -/
theorem upload_failure_consumes_id (count : Nat) (createOk : Bool)
    (clientName : Option Name) (stream : List IoStep) (hc : count ≠ u64Max)
    (hfail : createOk = false ∨ IoStep.ioError ∈ stream) :
    upload_file count createOk clientName stream =
      (Except.error UploadErr.uploadFailed, count + 1) := by
  unfold upload_file reserve
  simp only [hc, if_false]
  unfold write_file
  rcases hfail with h | h
  · simp [h]
  · cases createOk
    · simp
    · simp [writeChunks_error_of_mem h]

theorem upload_failure_consumes_id_witness :
    upload_file 0 true none [IoStep.ioError] =
      (Except.error UploadErr.uploadFailed, 1) :=
  upload_failure_consumes_id 0 true none [IoStep.ioError] (by decide)
    (Or.inr (by decide))

/-- C9: construction creates the storage directory, opens the marker file
and takes a non-blocking exclusive lock: it fails with the
directory-unavailable error when the directory cannot be created and with
the already-locked error when the lock is held; on success the lock is
recorded as held, so of two constructions over the same storage path at
most one succeeds and the other fails. -/
theorem construction_lock_exclusive (w : LockWorld) (p : Name) :
    (w.dirCreatable = false →
        FileUploader.new w p = Except.error InitErr.dirUnavailable) ∧
    (w.dirCreatable = true → w.locked = true →
        FileUploader.new w p = Except.error InitErr.alreadyLocked) ∧
    (w.dirCreatable = true → w.locked = false →
        FileUploader.new w p =
          Except.ok ({ folder_path := p, upload_count := 0 },
            { w with locked := true })) ∧
    (∀ u w', FileUploader.new w p = Except.ok (u, w') →
        FileUploader.new w' p = Except.error InitErr.alreadyLocked) := by
  refine ⟨?_, ?_, ?_, ?_⟩
  · intro h
    unfold FileUploader.new
    simp [h]
  · intro h1 h2
    unfold FileUploader.new
    simp [h1, h2]
  · intro h1 h2
    unfold FileUploader.new
    simp [h1, h2]
  · intro u w' hok
    unfold FileUploader.new at hok ⊢
    by_cases h1 : w.dirCreatable
    · by_cases h2 : w.locked
      · simp [h1, h2] at hok
      · simp only [h1, h2, if_true, if_false, Except.ok.injEq,
          Prod.mk.injEq] at hok
        obtain ⟨h3, h4⟩ := hok
        simp
    · simp [h1] at hok

theorem construction_lock_exclusive_witness :
    FileUploader.new { dirCreatable := true, locked := false } "uploads".data =
      Except.ok ({ folder_path := "uploads".data, upload_count := 0 },
        { dirCreatable := true, locked := true }) ∧
    FileUploader.new { dirCreatable := true, locked := true } "uploads".data =
      Except.error InitErr.alreadyLocked :=
  ⟨(construction_lock_exclusive ⟨true, false⟩ "uploads".data).2.2.1 rfl rfl,
   (construction_lock_exclusive ⟨true, false⟩ "uploads".data).2.2.2 _ _
     ((construction_lock_exclusive ⟨true, false⟩ "uploads".data).2.2.1 rfl rfl)⟩

/-- C2 counterexample: when the storage directory contains the lock marker
`.lock` as a (non-directory) entry — which it always does, since
construction creates it — `get_all_file_data` returns it as user content,
refuting the claim that the lock marker never appears in the returned
collection. -/
theorem list_includes_lock_marker :
    ({ filename := lockMarkerName } : Filedata) ∈
      get_all_file_data [{ name := lockMarkerName, isDir := false }] := by
  decide

/-- C2 (amended): `get_all_file_data` returns exactly the direct
non-directory entries of the storage directory, with no exclusion of the
lock marker file: a name is in the result precisely when some
non-directory entry carries it. -/
theorem list_returns_all_nondirectory_entries (entries : List DirEntry)
    (n : Name) :
    ({ filename := n } : Filedata) ∈ get_all_file_data entries ↔
      ∃ e ∈ entries, e.isDir = false ∧ e.name = n := by
  unfold get_all_file_data
  simp only [List.mem_map, List.mem_filter]
  constructor
  · rintro ⟨e, ⟨he, hd⟩, heq⟩
    exact ⟨e, he, by simpa using hd, by simpa using heq⟩
  · rintro ⟨e, he, hd, heq⟩
    exact ⟨e, ⟨he, by simp [hd]⟩, by simp [heq]⟩

/-- C3 counterexample: requesting the reserved name `.lock` passes the
download validation and, with the marker present on disk (as it always is
after construction), `download_file` returns an open handle to the marker
file instead of the absent result. -/
theorem lock_marker_downloadable :
    (download_file "uploads".data
        (fun p => if p = "uploads/.lock".data
          then some { content := [0] } else none)
        lockMarkerName).result = some { content := [0] } := by
  decide

/-- C3 (amended): `download_file` treats the reserved marker name `.lock`
like any other plain name: validation passes, the controller opens
`storage_path/.lock`, and whenever that open succeeds the marker file's
handle is returned (the absent result arises only when the open fails). -/
theorem download_lock_marker (folder_path : Name) (fs : OpenFs) (f : FsFile)
    (h : fs (pushPath folder_path lockMarkerName) = some f) :
    download_file folder_path fs lockMarkerName =
      { result := some f,
        openAttempt := some (pushPath folder_path lockMarkerName) } := by
  have htrav : has_traversal lockMarkerName = false := by decide
  have hne : lockMarkerName ≠ [] := by decide
  unfold download_file
  simp [htrav, hne, h]

theorem download_lock_marker_witness :
    download_file "up".data
      (fun p => if p = "up/.lock".data then some { content := [5] } else none)
      lockMarkerName =
      { result := some { content := [5] },
        openAttempt := some (pushPath "up".data lockMarkerName) } :=
  download_lock_marker "up".data _ { content := [5] } (by decide)

/-- C4 counterexample: the id reserved by an upload is the pre-increment
counter value, so the first upload on a fresh controller (counter 0) with
no client-provided filename is stored under `file_upload_0`, not
`file_upload_1`. -/
theorem first_upload_stored_name :
    (upload_file 0 true none []).1 =
      Except.ok ({ filename := "file_upload_0".data },
        { content := [], flushed := true }) ∧
    ("file_upload_0".data : Name) ≠ "file_upload_1".data := by
  constructor
  · rfl
  · decide

/-- C4 (amended): upload ids are reserved by reading the counter before
the increment and are 0-based: for `N` uploads starting from a fresh
controller the reserved ids are exactly `{0, …, N-1}` (no duplicates, no
gaps) and the counter ends at `N`; the first upload with no
client-provided filename is stored under the default name
`file_upload_0`. -/
theorem upload_ids_zero_based (N : Nat) (h : N ≤ u64Max) :
    runReservations N 0 = (List.range N, N) ∧ (List.range N).Nodup ∧
      (upload_file 0 true none []).1 =
        Except.ok ({ filename := default_filename 0 },
          { content := [], flushed := true }) := by
  refine ⟨?_, List.nodup_range N, ?_⟩
  · have he := runReservations_eq N 0 (by omega)
    rw [he, List.range_eq_range']
    simp
  · have h0 : (0 : Nat) ≠ u64Max := by
      unfold u64Max
      norm_num
    unfold upload_file reserve write_file
    simp only [h0, if_false, if_true]
    have hn : safe_name none 0 = default_filename 0 := by
      unfold safe_name
      simp [fileName_default]
    rw [hn]
    simp [writeChunks]

theorem upload_ids_zero_based_witness :
    runReservations 3 0 = (List.range 3, 3) ∧ (List.range 3).Nodup ∧
      (upload_file 0 true none []).1 =
        Except.ok ({ filename := default_filename 0 },
          { content := [], flushed := true }) :=
  upload_ids_zero_based 3 (by norm_num [u64Max])
